import Mathlib

/-!
# Verification of the apt-parser repository

A shallow embedding of the core pipeline of `aptparser.py` (and its
near-duplicate `apt-mirror.py`): source-line parsing, index-cache path
derivation, stanza splitting with `uri` injection, control-record parsing,
version resolution, snapshot export/import, and the download skip rule.

Conventions of the embedding:
* Python strings are Lean `String`s; line- and character-level processing is
  done on `List Char` (the `data` of a string) so that all functions are
  structural and kernel-evaluable.
* Python dictionaries are association lists (`alInsert` replaces the value of
  an existing key in place, as Python assignment to a dict key does, keeping
  insertion order).
* Fallible Python code (uncaught exceptions) is modelled with `Except PyErr`.
* The filesystem and the network are oracles passed in explicitly; every
  function that could fetch also returns the list of URLs it requested.
-/

/-- A Python value stored in a parsed record: either text or an integer
(the only coercion in the source is `int(v)` for the `Size` field). -/
inductive Value where
  | str : String → Value
  | int : Int → Value
deriving DecidableEq

/-- The uncaught-exception kinds the modelled code can raise.
`fuel` is a termination device of the embedding only: the record-parser loop
is given `lines.length` fuel, which is always sufficient (see
`parseLoopF_no_fuel_error`), so `fuel` is unreachable from the entry points. -/
inductive PyErr where
  | valueError : String → PyErr
  | typeError : PyErr
  | attributeError : String → PyErr
  | keyError : PyErr
  | unparseable : String → PyErr
  | notImplemented : PyErr
  | invalidList : PyErr
  | fuel : PyErr
deriving DecidableEq

/-- Is the value an integer? -/
def valueIsInt : Value → Bool
  | .int _ => true
  | .str _ => false

/-- Python f-string rendering of a value. -/
def valueToStr : Value → String
  | .str s => s
  | .int n => toString n

/-- A parsed package record: Python dict from field name to value,
in insertion order. -/
abbrev Record := List (String × Value)

/-- The package catalog: Python dict from the value of the `package` field
to the surviving record. -/
abbrev Catalog := List (Value × Record)

/-- Python dict assignment `d[k] = v`: replace in place if the key exists
(keeping its position), else append. -/
def alInsert {κ α : Type} [DecidableEq κ] : List (κ × α) → κ → α → List (κ × α)
  | [], k, v => [(k, v)]
  | (k', v') :: rest, k, v =>
    if k' = k then (k', v) :: rest else (k', v') :: alInsert rest k v

/-- Python dict lookup `d.get(k)` / attribute access. -/
def alLookup {κ α : Type} [DecidableEq κ] : List (κ × α) → κ → Option α
  | [], _ => none
  | (k', v') :: rest, k => if k' = k then some v' else alLookup rest k

theorem alLookup_alInsert_self {κ α : Type} [DecidableEq κ]
    (l : List (κ × α)) (k : κ) (v : α) : alLookup (alInsert l k v) k = some v := by
  induction l with
  | nil => simp [alInsert, alLookup]
  | cons p rest ih =>
    obtain ⟨k', v'⟩ := p
    by_cases h : k' = k <;> simp [alInsert, alLookup, h, ih]

theorem alLookup_alInsert_ne {κ α : Type} [DecidableEq κ]
    (l : List (κ × α)) (k k' : κ) (v : α) (h : k' ≠ k) :
    alLookup (alInsert l k v) k' = alLookup l k' := by
  induction l with
  | nil =>
    have : ¬ k = k' := fun hh => h hh.symm
    simp [alInsert, alLookup, this]
  | cons p rest ih =>
    obtain ⟨a, b⟩ := p
    by_cases ha : a = k
    · subst ha
      have : ¬ a = k' := fun hh => h hh.symm
      simp [alInsert, alLookup, this]
    · simp [alInsert, alLookup, ha, ih]

theorem mem_alInsert {κ α : Type} [DecidableEq κ]
    (l : List (κ × α)) (k : κ) (v : α) (a : κ) (b : α)
    (h : (a, b) ∈ alInsert l k v) : (a, b) ∈ l ∨ (a = k ∧ b = v) := by
  induction l with
  | nil =>
    simp [alInsert] at h
    exact Or.inr h
  | cons p rest ih =>
    obtain ⟨k', v'⟩ := p
    by_cases hk : k' = k
    · subst hk
      simp [alInsert] at h
      rcases h with ⟨ha, hb⟩ | hmem
      · exact Or.inr ⟨ha, hb⟩
      · exact Or.inl (List.mem_cons_of_mem _ hmem)
    · simp [alInsert, hk] at h
      rcases h with ⟨ha, hb⟩ | hmem
      · exact Or.inl (by simp [ha, hb])
      · rcases ih hmem with h' | h'
        · exact Or.inl (List.mem_cons_of_mem _ h')
        · exact Or.inr h'

theorem length_alInsert_of_not_mem {κ α : Type} [DecidableEq κ]
    (l : List (κ × α)) (k : κ) (v : α) (h : alLookup l k = none) :
    (alInsert l k v).length = l.length + 1 := by
  induction l with
  | nil => simp [alInsert]
  | cons p rest ih =>
    obtain ⟨k', v'⟩ := p
    by_cases hk : k' = k
    · simp [alLookup, hk] at h
    · simp [alLookup, hk] at h
      simp [alInsert, hk, ih h]

theorem alInsert_ne_of_not_mem {κ α : Type} [DecidableEq κ]
    (l : List (κ × α)) (k : κ) (v : α) (h : alLookup l k = none) :
    alInsert l k v ≠ l := by
  intro heq
  have := length_alInsert_of_not_mem l k v h
  rw [heq] at this
  omega

theorem alLookup_map_snd {κ α β : Type} [DecidableEq κ]
    (l : List (κ × α)) (g : α → β) (k : κ) :
    alLookup (l.map (fun kv => (kv.1, g kv.2))) k = (alLookup l k).map g := by
  induction l with
  | nil => simp [alLookup]
  | cons p rest ih =>
    obtain ⟨k', v'⟩ := p
    by_cases h : k' = k <;> simp [alLookup, h, ih]

/-! ## Character-level models of the Python string operations used -/

/-- Python `str.split("\n")`, accumulator form. -/
def splitLinesAux : List Char → List Char → List (List Char)
  | [], acc => [acc.reverse]
  | c :: cs, acc =>
    if c = '\n' then acc.reverse :: splitLinesAux cs []
    else splitLinesAux cs (c :: acc)

/-- Python `str.split("\n")`. -/
def splitLinesC (cs : List Char) : List (List Char) := splitLinesAux cs []

/-- Python `str.strip("\n")`: drop newline characters from both ends. -/
def stripNLC (cs : List Char) : List Char :=
  ((cs.dropWhile (fun c => c = '\n')).reverse.dropWhile (fun c => c = '\n')).reverse

/-- Python `str.split("\n\n")` (leftmost, non-overlapping), accumulator form. -/
def splitNLNLAux : List Char → List Char → List (List Char)
  | [], acc => [acc.reverse]
  | '\n' :: '\n' :: cs, acc => acc.reverse :: splitNLNLAux cs []
  | c :: cs, acc => splitNLNLAux cs (c :: acc)

/-- Python `str.split("\n\n")`. -/
def splitNLNLC (cs : List Char) : List (List Char) := splitNLNLAux cs []

/-- The ASCII whitespace characters of Python's `str.strip()` and `\s`. -/
def pyIsSpace (c : Char) : Bool :=
  c = ' ' ∨ c = '\t' ∨ c = '\n' ∨ c = '\r' ∨ c = '\x0b' ∨ c = '\x0c'

/-- Python `str.strip()` (ASCII whitespace; the inputs are ASCII control data). -/
def pyStripC (cs : List Char) : List Char :=
  ((cs.dropWhile pyIsSpace).reverse.dropWhile pyIsSpace).reverse

/-- Python `line.split(": ", 1)`: split at the first occurrence of `": "`;
`none` models the `ValueError` when the separator is absent. -/
def splitHeaderC : List Char → Option (List Char × List Char)
  | [] => none
  | c :: rest =>
    if c = ':' ∧ rest.head? = some ' ' then some ([], rest.tail)
    else
      match splitHeaderC rest with
      | some (k, v) => some (c :: k, v)
      | none => none

/-- Python `int(v)` on the strings the parser feeds it: optional surrounding
whitespace, optional sign, one or more decimal digits. -/
def pyIntC (cs : List Char) : Option Int :=
  let t := pyStripC cs
  let (sgn, digits) : Int × List Char :=
    match t with
    | '-' :: rest => (-1, rest)
    | '+' :: rest => (1, rest)
    | _ => (1, t)
  if digits ≠ [] ∧ digits.all Char.isDigit then
    some (sgn * (digits.foldl (fun n c => n * 10 + (c.toNat - '0'.toNat)) 0 : Nat))
  else none

/-- Python `str.lower()` on the ASCII field names of a control file
(`Char.toLower` lowers exactly the ASCII uppercase letters). -/
def pyLowerC (cs : List Char) : List Char := cs.map Char.toLower

/-- `line.startswith(" ")`: the continuation-line test. -/
def isContC (l : List Char) : Bool :=
  match l with
  | ' ' :: _ => true
  | _ => false

/-- Does a continuation line follow? (`lines and lines[0].startswith(" ")`). -/
def contNext (rest : List (List Char)) : Bool :=
  match rest with
  | l :: _ => isContC l
  | [] => false

/-- Python `"\n".join` on character lists. -/
def joinNLC : List (List Char) → List Char
  | [] => []
  | [s] => s
  | s :: t :: rest => s ++ '\n' :: joinNLC (t :: rest)

/-- One consumed continuation line: stripped, with a lone `.` replaced by the
empty string (dot-stuffing). -/
def contLineValue (l : List Char) : List Char :=
  let t := pyStripC l
  if t = ['.'] then [] else t

/-- The folded value of a field: the header value and the consumed
continuation lines joined by newlines. -/
def foldConts (v0 : List Char) (conts : List (List Char)) : List Char :=
  joinNLC (v0 :: conts.map contLineValue)

/-! ## Control Record Parser (`parse_package_metadata`) -/

/-- The `while lines:` loop of `parse_package_metadata`, with explicit fuel
(one unit per header line; `lines.length` is always enough).

Per iteration: pop a line, split it on the first `": "` (`ValueError` if
absent), coerce the value with `int` when the key is exactly `"Size"`, then
consume the following continuation lines into the value; finally store under
the lower-cased key. A coerced (integer) value followed by a continuation
line models Python's `TypeError` from `"\n".join([int, ...])`. -/
def parseLoopF : Nat → List (List Char) → Record → Except PyErr Record
  | _, [], pkg => .ok pkg
  | 0, _ :: _, _ => .error .fuel
  | n + 1, line :: rest, pkg =>
    match splitHeaderC line with
    | none => .error (.valueError (String.mk line))
    | some (k, v0) =>
      if k = "Size".data then
        match pyIntC v0 with
        | none => .error (.valueError (String.mk v0))
        | some nv =>
          if contNext rest then .error .typeError
          else parseLoopF n rest (alInsert pkg (String.mk (pyLowerC k)) (.int nv))
      else
        if contNext rest then
          parseLoopF n (rest.dropWhile isContC)
            (alInsert pkg (String.mk (pyLowerC k))
              (.str (String.mk (foldConts v0 (rest.takeWhile isContC)))))
        else parseLoopF n rest (alInsert pkg (String.mk (pyLowerC k)) (.str (String.mk v0)))

/-- The line list the parser works on: `package.strip("\n").split("\n")`. -/
def linesOf (s : String) : List (List Char) := splitLinesC (stripNLC s.data)

/-- `parse_package_metadata` of `aptparser.py` (identical inline code in
`apt-mirror.py`): one stanza to a record. -/
def parse_package_metadata (package : String) : Except PyErr Record :=
  parseLoopF (linesOf package).length (linesOf package) []

deriving instance DecidableEq for Except

/-! ## Version Resolver

`apt_pkg.version_compare` is an external oracle (the spec treats it as such);
the comparison below is modelled from the spec: Debian version ordering over
`epoch:upstream-version-revision`, comparing alternating non-digit segments
with a modified lexicographic order (`~` before the empty segment, letters
before non-letters) and digit segments numerically. Only the sign of the
result is ever used (`res >= 1`). -/

/-- The modified-lexicographic weight of a character in a non-digit segment:
`~` sorts below end-of-segment (weight 0), letters sort by code point, and
all other characters sort above every letter. -/
def charWeight : Char → Int
  | c =>
    if c.isDigit then 0
    else if c.isAlpha then (c.toNat : Int)
    else if c = '~' then -1
    else if c.toNat ≠ 0 then (c.toNat : Int) + 256
    else 0

/-- The first nonzero weight of an exhausted-versus-remaining comparison. -/
def firstNonZero : List Int → Int
  | [] => 0
  | x :: xs => if x ≠ 0 then x else firstNonZero xs

/-- Modified lexicographic comparison of two weight lists, with the empty
list extended by weight 0. -/
def cmpWeights : List Int → List Int → Int
  | [], ys => - firstNonZero ys
  | x :: xs, [] => if x ≠ 0 then x else cmpWeights xs []
  | x :: xs, y :: ys => if x ≠ y then x - y else cmpWeights xs ys

/-- Comparison of two non-digit segments. -/
def nonDigitCmp (a b : List Char) : Int :=
  cmpWeights (a.map charWeight) (b.map charWeight)

/-- Lexicographic difference of two equal-length digit runs. -/
def digitLex : List Char → List Char → Int
  | [], _ => 0
  | _ :: _, [] => 0
  | c :: cs, d :: ds => if c ≠ d then (c.toNat : Int) - (d.toNat : Int) else digitLex cs ds

/-- Numeric comparison of two digit segments: strip leading zeros, the longer
run is larger, equal-length runs compare lexicographically. -/
def numCmp (a b : List Char) : Int :=
  let a' := a.dropWhile (fun c => c = '0')
  let b' := b.dropWhile (fun c => c = '0')
  if a'.length > b'.length then 1
  else if a'.length < b'.length then -1
  else digitLex a' b'

/-- Maximal runs of a version fragment, each tagged with whether it is a
digit run. -/
def charRuns : List Char → List (Bool × List Char)
  | [] => []
  | c :: cs =>
    match charRuns cs with
    | [] => [(c.isDigit, [c])]
    | (t, r) :: rest =>
      if t = c.isDigit then (t, c :: r) :: rest
      else (c.isDigit, [c]) :: (t, r) :: rest

/-- Regroup tagged runs into alternating (non-digit segment, digit segment)
pairs, inserting empty segments where a run kind is missing. -/
def pairRuns : List (Bool × List Char) → List (List Char × List Char)
  | [] => []
  | (false, a) :: (true, d) :: rest => (a, d) :: pairRuns rest
  | (false, a) :: rest => (a, []) :: pairRuns rest
  | (true, d) :: rest => ([], d) :: pairRuns rest

/-- Compare one (non-digit, digit) segment pair. -/
def cmpSegPair (p q : List Char × List Char) : Int :=
  let r := nonDigitCmp p.1 q.1
  if r ≠ 0 then r else numCmp p.2 q.2

/-- Compare a trailing segment-pair list against the exhausted side. -/
def cmpSegTail : List (List Char × List Char) → Int
  | [] => 0
  | p :: ps =>
    let r := cmpSegPair p ([], [])
    if r ≠ 0 then r else cmpSegTail ps

/-- Compare two segment-pair lists in order. -/
def cmpSegs : List (List Char × List Char) → List (List Char × List Char) → Int
  | [], qs => - cmpSegTail qs
  | p :: ps, [] =>
    let r := cmpSegPair p ([], [])
    if r ≠ 0 then r else cmpSegs ps []
  | p :: ps, q :: qs =>
    let r := cmpSegPair p q
    if r ≠ 0 then r else cmpSegs ps qs

/-- Compare two version fragments (an upstream version or a revision). -/
def verFragmentCmp (a b : List Char) : Int :=
  cmpSegs (pairRuns (charRuns a)) (pairRuns (charRuns b))

/-- Split off the epoch: the part before the first `:`; a missing epoch is
`0`. -/
def splitEpoch (v : List Char) : List Char × List Char :=
  match splitFirstColon v with
  | some (e, rest) => (e, rest)
  | none => (['0'], v)
where
  splitFirstColon : List Char → Option (List Char × List Char)
    | [] => none
    | c :: rest =>
      if c = ':' then some ([], rest)
      else
        match splitFirstColon rest with
        | some (e, r) => some (c :: e, r)
        | none => none

/-- Split off the Debian revision: the part after the last `-`; a missing
revision is empty. -/
def splitRevision (v : List Char) : List Char × List Char :=
  match splitLastDash v with
  | some (u, r) => (u, r)
  | none => (v, [])
where
  splitLastDash : List Char → Option (List Char × List Char)
    | [] => none
    | c :: cs =>
      match splitLastDash cs with
      | some (u, r) => some (c :: u, r)
      | none => if c = '-' then some ([], cs) else none

/-- Modelled from the spec: `apt_pkg.version_compare` (the repository imports
it from the external `apt_pkg` module, whose code is not part of this
repository). Debian version ordering per §4.5: numeric epoch
(missing epoch is 0), then upstream version, then revision (after the last
`-`; missing revision is empty), fragments compared segment-wise. Negative
means the first version is smaller, 0 equal, positive larger — only the sign
is observable in the source. -/
def version_compare (a b : String) : Int :=
  let (e1, r1) := splitEpoch a.data
  let (e2, r2) := splitEpoch b.data
  let ce := numCmp e1 e2
  if ce ≠ 0 then ce
  else
    let (u1, v1) := splitRevision r1
    let (u2, v2) := splitRevision r2
    let cu := verFragmentCmp u1 u2
    if cu ≠ 0 then cu else verFragmentCmp v1 v2

/-- `get_larger_version` of `aptparser.py` (identical in `apt-mirror.py`):
keep the first record iff its version compares `>= 1` against the second,
otherwise return the second. Missing `version` attributes raise. -/
def get_larger_version (pkg1 pkg2 : Record) : Except PyErr Record :=
  match alLookup pkg1 "version", alLookup pkg2 "version" with
  | some (.str v1), some (.str v2) =>
    .ok (if 1 ≤ version_compare v1 v2 then pkg1 else pkg2)
  | _, _ => .error (.attributeError "version")

/-- One iteration of the catalog loop in `main`: read `package.package`
(an `AttributeError` aborts the run when the field is absent), then either
first-insert or resolve against the existing entry via `get_larger_version`. -/
def catalogStep (packages : Catalog) (package : Record) : Except PyErr Catalog :=
  match alLookup package "package" with
  | none => .error (.attributeError "package")
  | some name =>
    match alLookup packages name with
    | some old =>
      match get_larger_version old package with
      | .ok winner => .ok (alInsert packages name winner)
      | .error e => .error e
    | none => .ok (alInsert packages name package)

/-- The `for package in package_data:` loop of `main` in `aptparser.py`:
skip empty stanzas, parse, and fold into the catalog. Any exception
(bad header line, missing `package` field, missing `version` on a duplicate)
propagates and aborts the whole loop — there is no handler around it. -/
def processPackageData : List String → Catalog → Except PyErr Catalog
  | [], packages => .ok packages
  | p :: rest, packages =>
    if p = "" then processPackageData rest packages
    else
      match parse_package_metadata p with
      | .error e => .error e
      | .ok pkg =>
        match catalogStep packages pkg with
        | .error e => .error e
        | .ok packages' => processPackageData rest packages'

theorem alInsert_of_alLookup_eq {κ α : Type} [DecidableEq κ]
    (l : List (κ × α)) (k : κ) (v : α) (h : alLookup l k = some v) :
    alInsert l k v = l := by
  induction l with
  | nil => simp [alLookup] at h
  | cons p rest ih =>
    obtain ⟨k', v'⟩ := p
    by_cases hk : k' = k
    · simp [alLookup, hk] at h
      simp [alInsert, hk, h]
    · simp [alLookup, hk] at h
      simp [alInsert, hk, ih h]

/-! ## Claim C1: the version-resolver replace decision -/

/-- Two records with the same name and the same version but different payloads
(distinct `uri`), for exhibiting the tie behaviour. -/
def recFooFirst : Record :=
  [("package", .str "foo"), ("version", .str "1.0"), ("uri", .str "http://a.example/debian")]

/-- The later-seen twin of `recFooFirst`. -/
def recFooSecond : Record :=
  [("package", .str "foo"), ("version", .str "1.0"), ("uri", .str "http://b.example/debian")]

/-- Claim C1 is false as stated: on a version tie the resolver does NOT keep
the first-seen record. With the catalog holding `recFooFirst` under `foo`,
a new record `recFooSecond` with the equal version `"1.0"` replaces it
(`get_larger_version` keeps the existing record only when the comparison is
`>= 1`, so a tie — result 0 — returns the new record). -/
theorem C1_tie_counterexample :
    version_compare "1.0" "1.0" = 0 ∧
    catalogStep [(Value.str "foo", recFooFirst)] recFooSecond =
      .ok [(Value.str "foo", recFooSecond)] ∧
    recFooSecond ≠ recFooFirst := by
  refine ⟨by decide, by decide, by decide⟩

/-- Claim C1 amended: on a new record for an existing name the stored record
is replaced exactly when the existing version is NOT strictly greater under
Debian ordering — the new record wins ties (last-seen wins) and wins when
strictly greater; only a strictly greater existing version keeps the catalog
unchanged. -/
theorem C1_resolver_amended (cat : Catalog) (old pkg : Record) (name : Value)
    (v1 v2 : String)
    (hname : alLookup pkg "package" = some name)
    (hold : alLookup cat name = some old)
    (h1 : alLookup old "version" = some (.str v1))
    (h2 : alLookup pkg "version" = some (.str v2)) :
    catalogStep cat pkg =
      .ok (alInsert cat name (if 1 ≤ version_compare v1 v2 then old else pkg)) ∧
    (1 ≤ version_compare v1 v2 → catalogStep cat pkg = .ok cat) ∧
    (version_compare v1 v2 = 0 → catalogStep cat pkg = .ok (alInsert cat name pkg)) ∧
    (version_compare v1 v2 ≤ -1 → catalogStep cat pkg = .ok (alInsert cat name pkg)) := by
  have hmain : catalogStep cat pkg =
      .ok (alInsert cat name (if 1 ≤ version_compare v1 v2 then old else pkg)) := by
    simp only [catalogStep, hname, hold, get_larger_version, h1, h2]
  refine ⟨hmain, ?_, ?_, ?_⟩
  · intro h
    rw [hmain]
    simp only [if_pos h]
    rw [alInsert_of_alLookup_eq cat name old hold]
  · intro h
    rw [hmain]
    have : ¬ 1 ≤ version_compare v1 v2 := by omega
    simp [this]
  · intro h
    rw [hmain]
    have : ¬ 1 ≤ version_compare v1 v2 := by omega
    simp [this]

/-- Witness for `C1_resolver_amended` at a concrete input: existing version
`"2.0"` is strictly greater than the new `"1.0"`, so the catalog entry is
kept. -/
theorem C1_resolver_amended_witness :
    catalogStep [(Value.str "foo", recFooFirst)]
        [("package", Value.str "foo"), ("version", Value.str "0.9")] =
      .ok (alInsert [(Value.str "foo", recFooFirst)] (Value.str "foo")
        (if 1 ≤ version_compare "1.0" "0.9" then recFooFirst
         else [("package", Value.str "foo"), ("version", Value.str "0.9")])) :=
  (C1_resolver_amended [(Value.str "foo", recFooFirst)]
    recFooFirst [("package", Value.str "foo"), ("version", Value.str "0.9")]
    (Value.str "foo") "1.0" "0.9"
    (by decide) (by decide) (by decide) (by decide)).1

/-! ## Claim C3: a stanza without `package` -/

theorem processPackageData_append (pre rest : List String) (cat : Catalog) :
    processPackageData (pre ++ rest) cat =
      match processPackageData pre cat with
      | .ok cat' => processPackageData rest cat'
      | .error e => .error e := by
  induction pre generalizing cat with
  | nil => simp [processPackageData]
  | cons p pre' ih =>
    simp only [List.cons_append, processPackageData]
    by_cases hp : p = ""
    · simp [hp, ih]
    · simp only [if_neg hp]
      cases hpar : parse_package_metadata p with
      | error e => simp
      | ok pkg =>
        simp only []
        cases hcs : catalogStep cat pkg with
        | error e => simp
        | ok cat' => simpa using ih cat'

/-- Claim C3 is false as stated for `aptparser.py`: a stanza whose header
lines parse but which lacks a `package` field does not merely lose its own
entry — the uncaught `AttributeError` aborts the whole processing loop, so
the following valid stanza `package: b` never reaches the catalog either. -/
theorem C3_abort_counterexample :
    processPackageData
      ["version: 1\nuri: http://a.example/debian", "package: b\nversion: 2"] [] =
      .error (.attributeError "package") := by
  decide

/-- Claim C3 amended: in `aptparser.py` the failure is fatal for the whole
run, not just the stanza. If the stanzas before `s` process fine and `s`
parses to a record with no `package` field, the loop aborts with the
attribute error no matter what stanzas follow; no catalog is produced at
all. (`apt-mirror.py` differs: its bare `except` swallows the error but then
reuses the previous loop iteration's `name`, possibly overwriting that
entry.) -/
theorem C3_missing_package_fatal (pre post : List String) (s : String)
    (cat0 cat1 : Catalog) (pkg : Record)
    (hpre : processPackageData pre cat0 = .ok cat1)
    (hs : s ≠ "")
    (hparse : parse_package_metadata s = .ok pkg)
    (hnopkg : alLookup pkg "package" = none) :
    processPackageData (pre ++ s :: post) cat0 = .error (.attributeError "package") := by
  rw [processPackageData_append, hpre]
  simp only [processPackageData, if_neg hs, hparse]
  unfold catalogStep
  rw [hnopkg]

/-- Witness for `C3_missing_package_fatal` at a concrete input. -/
theorem C3_missing_package_fatal_witness :
    processPackageData
      (["package: a\nversion: 1"] ++ "version: 9" :: ["package: c\nversion: 1"]) [] =
      .error (.attributeError "package") :=
  C3_missing_package_fatal ["package: a\nversion: 1"] ["package: c\nversion: 1"]
    "version: 9" [] [(Value.str "a", [("package", Value.str "a"), ("version", Value.str "1")])]
    [("version", Value.str "9")]
    (by decide) (by decide) (by decide) (by decide)

/-! ## Claim C5: continuation folding -/

theorem dropWhile_of_contNext_false (rest : List (List Char))
    (h : contNext rest = false) : rest.dropWhile isContC = rest := by
  cases rest with
  | nil => rfl
  | cons r rs =>
    simp [contNext] at h
    simp [List.dropWhile, h]

theorem takeWhile_of_contNext_false (rest : List (List Char))
    (h : contNext rest = false) : rest.takeWhile isContC = [] := by
  cases rest with
  | nil => rfl
  | cons r rs =>
    simp [contNext] at h
    simp [List.takeWhile, h]

/-- Claim C5 is false as stated: the folded value also contains the header
line's own value. For the field `K: x` followed by the continuation lines
`" a"`, `" ."`, `" b"` the parsed value is `"x\na\n\nb"`, not `"a\n\nb"`
(the dot line does yield an empty string, but the header value `x` heads the
join). No header line can produce exactly `"a\n\nb"` from those three
continuation lines, because the join always starts with the header value
followed by a newline. -/
theorem C5_folding_counterexample :
    parse_package_metadata "K: x\n a\n .\n b" = .ok [("k", Value.str "x\na\n\nb")] ∧
    Value.str "x\na\n\nb" ≠ Value.str "a\n\nb" := by
  refine ⟨by decide, by decide⟩

/-- Claim C5 amended: for every stanza field whose header line splits into
key `k` and value `v0` and is followed by exactly the continuation lines
`" a"`, `" ."`, `" b"`, the parser consumes the three lines and stores under
the lower-cased key the value `v0 ++ "\na\n\nb"` — the continuation lines
joined onto the header value by newlines, the `"."` line contributing an
empty string rather than a literal dot. -/
theorem C5_folding_amended (n : Nat) (line k v0 : List Char)
    (rest : List (List Char)) (pkg : Record)
    (hsplit : splitHeaderC line = some (k, v0))
    (hk : k ≠ "Size".data)
    (hrest : contNext rest = false) :
    parseLoopF (n + 1) (line :: " a".data :: " .".data :: " b".data :: rest) pkg =
      parseLoopF n rest
        (alInsert pkg (String.mk (pyLowerC k))
          (.str (String.mk (v0 ++ "\na\n\nb".data)))) := by
  have hdrop : (" a".data :: " .".data :: " b".data :: rest).dropWhile isContC = rest := by
    simp [List.dropWhile, isContC, dropWhile_of_contNext_false rest hrest]
  have htake : (" a".data :: " .".data :: " b".data :: rest).takeWhile isContC =
      [" a".data, " .".data, " b".data] := by
    simp [List.takeWhile, isContC, takeWhile_of_contNext_false rest hrest]
  simp only [parseLoopF, hsplit, if_neg hk]
  have hcont : contNext (" a".data :: " .".data :: " b".data :: rest) = true := rfl
  rw [hcont]
  simp only [if_pos rfl, hdrop, htake]
  rfl

/-- Witness for `C5_folding_amended` at a concrete input. -/
theorem C5_folding_amended_witness :
    parseLoopF 1 ("Description: x".data :: " a".data :: " .".data :: " b".data :: []) [] =
      parseLoopF 0 []
        (alInsert [] (String.mk (pyLowerC "Description".data))
          (.str (String.mk ("x".data ++ "\na\n\nb".data)))) :=
  C5_folding_amended 0 "Description: x".data "Description".data "x".data [] []
    (by decide) (by decide) (by decide)

/-! ## Claim C9: lower-cased keys and the `Size` coercion -/

/-- Every key of the record is the lower-casing of some original header name,
and integer values occur only for the exact header spelling `Size` (whose
lower-cased storage key is `size`). -/
def lowerSizeGood (r : Record) : Prop :=
  ∀ k v, (k, v) ∈ r →
    ∃ k0 : List Char, k = String.mk (pyLowerC k0) ∧ (valueIsInt v = true → k0 = "Size".data)

theorem parseLoopF_lowerSizeGood :
    ∀ (n : Nat) (lines : List (List Char)) (pkg r : Record),
      lowerSizeGood pkg → parseLoopF n lines pkg = .ok r → lowerSizeGood r := by
  intro n
  induction n with
  | zero =>
    intro lines pkg r hg h
    cases lines with
    | nil => simp [parseLoopF] at h; exact h ▸ hg
    | cons l ls => simp [parseLoopF] at h
  | succ n ih =>
    intro lines pkg r hg h
    cases lines with
    | nil => simp [parseLoopF] at h; exact h ▸ hg
    | cons line rest =>
      have hins : ∀ (k0 : List Char) (v : Value),
          (valueIsInt v = true → k0 = "Size".data) →
          lowerSizeGood (alInsert pkg (String.mk (pyLowerC k0)) v) := by
        intro k0 v hv a b hab
        rcases mem_alInsert _ _ _ _ _ hab with hmem | ⟨ha, hb⟩
        · exact hg a b hmem
        · exact ⟨k0, ha, hb ▸ hv⟩
      unfold parseLoopF at h
      split at h
      · exact absurd h (by simp)
      · rename_i k v0 hsp
        split at h
        · rename_i hk
          split at h
          · exact absurd h (by simp)
          · rename_i nv hiv
            split at h
            · exact absurd h (by simp)
            · exact ih rest _ r (hins k (.int nv) (fun _ => hk)) h
        · split at h
          · exact ih _ _ r (hins k (.str _) (by simp [valueIsInt])) h
          · exact ih rest _ r (hins k (.str _) (by simp [valueIsInt])) h

/-- Claim C9 is false as stated: the coercion tests the header spelling
before lower-casing, so a stanza that spells the field `size: 10` keeps the
value as text — the stored `size` value is the string `"10"`, not an
integer. -/
theorem C9_size_counterexample :
    parse_package_metadata "size: 10\npackage: p" =
      .ok [("size", Value.str "10"), ("package", Value.str "p")] ∧
    valueIsInt (Value.str "10") = false := by
  refine ⟨by decide, rfl⟩

/-- Claim C9 amended: every successfully parsed record maps lower-cased field
names to values, and a value is an integer exactly when the stanza spelled
the field name as `Size` (case-sensitively): (1) every key of a parsed
record is the lower-casing of its header name and integer values arise only
from the exact spelling `Size`; (2) a `Size: <digits>` header is stored
under `size` as an integer; (3) any other spelling, e.g. `size:`, is stored
as text. -/
theorem C9_fields_amended :
    (∀ (s : String) (r : Record), parse_package_metadata s = .ok r → lowerSizeGood r) ∧
    (∀ (n : Nat) (v0 : List Char) (iv : Int) (rest : List (List Char)) (pkg : Record),
      pyIntC v0 = some iv → contNext rest = false →
      parseLoopF (n + 1) (('S' :: 'i' :: 'z' :: 'e' :: ':' :: ' ' :: v0) :: rest) pkg =
        parseLoopF n rest (alInsert pkg "size" (.int iv))) ∧
    (∀ (n : Nat) (v0 : List Char) (rest : List (List Char)) (pkg : Record),
      contNext rest = false →
      parseLoopF (n + 1) (('s' :: 'i' :: 'z' :: 'e' :: ':' :: ' ' :: v0) :: rest) pkg =
        parseLoopF n rest (alInsert pkg "size" (.str (String.mk v0)))) := by
  refine ⟨?_, ?_, ?_⟩
  · intro s r h
    exact parseLoopF_lowerSizeGood _ _ [] r (by intro a b hab; simp at hab) h
  · intro n v0 iv rest pkg hiv hrest
    have hsp : splitHeaderC ('S' :: 'i' :: 'z' :: 'e' :: ':' :: ' ' :: v0) = some ("Size".data, v0) := by
      simp [splitHeaderC]
    simp only [parseLoopF, hsp, if_pos rfl, hiv, hrest]
    rfl
  · intro n v0 rest pkg hrest
    have hsp : splitHeaderC ('s' :: 'i' :: 'z' :: 'e' :: ':' :: ' ' :: v0) = some ("size".data, v0) := by
      simp [splitHeaderC]
    have hk : ¬ ("size".data : List Char) = "Size".data := by decide
    simp only [parseLoopF, hsp, if_neg hk, hrest]
    rfl

/-- Witness for `C9_fields_amended`, exercising all three conjuncts at
concrete inputs. -/
theorem C9_fields_amended_witness :
    lowerSizeGood [("package", Value.str "foo"), ("size", Value.int 7)] ∧
    parseLoopF 1 (('S' :: 'i' :: 'z' :: 'e' :: ':' :: ' ' :: "7".data) :: []) [] =
      parseLoopF 0 [] (alInsert [] "size" (.int 7)) ∧
    parseLoopF 1 (('s' :: 'i' :: 'z' :: 'e' :: ':' :: ' ' :: "7".data) :: []) [] =
      parseLoopF 0 [] (alInsert [] "size" (.str (String.mk "7".data))) := by
  refine ⟨?_, ?_, ?_⟩
  · exact C9_fields_amended.1 "Package: foo\nSize: 7"
      [("package", Value.str "foo"), ("size", Value.int 7)] (by decide)
  · exact C9_fields_amended.2.1 0 "7".data 7 [] [] (by decide) (by decide)
  · exact C9_fields_amended.2.2 0 "7".data [] [] (by decide)

/-! ## Claim C8: stanza splitting and `uri` injection -/

theorem dropWhile_nl_cons_not (c : Char) (cs : List Char) (h : ¬ c = '\n') :
    (c :: cs).dropWhile (fun ch => ch = '\n') = c :: cs := by
  simp [List.dropWhile_cons, h]

theorem splitLinesAux_append_nl (a b : List Char) :
    ∀ acc, splitLinesAux (a ++ '\n' :: b) acc = splitLinesAux a acc ++ splitLinesAux b [] := by
  induction a with
  | nil => intro acc; simp [splitLinesAux]
  | cons c cs ih =>
    intro acc
    by_cases hc : c = '\n' <;> simp [splitLinesAux, hc, ih]

theorem splitLinesAux_no_nl (b : List Char) (hb : '\n' ∉ b) :
    ∀ acc, splitLinesAux b acc = [acc.reverse ++ b] := by
  induction b with
  | nil => intro acc; simp [splitLinesAux]
  | cons c cs ih =>
    intro acc
    have hc : ¬ c = '\n' := fun h => hb (h ▸ List.mem_cons_self c cs)
    have hcs : '\n' ∉ cs := fun h => hb (List.mem_cons_of_mem c h)
    simp [splitLinesAux, hc, ih hcs]

/-- Stripping outer newlines from `x ++ "\n" ++ y` (for newline-free,
nonempty `y`) and splitting into lines always yields a line list ending in
`y`. -/
theorem linesOf_append_uri (x y : List Char) (hy : '\n' ∉ y) (hne : y ≠ []) :
    ∃ ls : List (List Char), splitLinesC (stripNLC (x ++ '\n' :: y)) = ls ++ [y] := by
  obtain ⟨c, cs, hcy⟩ : ∃ c cs, y = c :: cs := by
    cases y with
    | nil => exact absurd rfl hne
    | cons c cs => exact ⟨c, cs, rfl⟩
  have hcnl : ¬ (c = '\n') := fun h => hy (by rw [hcy]; exact h ▸ List.mem_cons_self c cs)
  obtain ⟨d, ds, hdy⟩ : ∃ d ds, y.reverse = d :: ds := by
    cases hr : y.reverse with
    | nil => exact absurd (by simpa using congrArg List.reverse hr) hne
    | cons d ds => exact ⟨d, ds, rfl⟩
  have hdnl : ¬ (d = '\n') := by
    intro h
    apply hy
    have hmem : d ∈ y.reverse := by rw [hdy]; exact List.mem_cons_self d ds
    rw [h] at hmem
    simpa using hmem
  have hback : ∀ z : List Char,
      ((z ++ '\n' :: y).reverse.dropWhile (fun ch => ch = '\n')).reverse = z ++ '\n' :: y := by
    intro z
    have hrev : (z ++ '\n' :: y).reverse = y.reverse ++ '\n' :: z.reverse := by simp
    rw [hrev, hdy, List.cons_append, dropWhile_nl_cons_not d _ hdnl, ← List.cons_append, ← hdy]
    simp
  have hnlstep : ('\n' :: y).dropWhile (fun ch => ch = '\n') = y := by
    rw [List.dropWhile_cons]
    simp only [decide_True, if_true]
    rw [hcy, dropWhile_nl_cons_not c cs hcnl]
  have hfront : (x ++ '\n' :: y).dropWhile (fun ch => ch = '\n') =
      x.dropWhile (fun ch => ch = '\n') ++ '\n' :: y ∨
      (x ++ '\n' :: y).dropWhile (fun ch => ch = '\n') = y := by
    rw [List.dropWhile_append]
    by_cases hx : (x.dropWhile (fun ch => ch = '\n')).isEmpty
    · right
      rw [if_pos hx, hnlstep]
    · left
      rw [if_neg hx]
  unfold stripNLC
  rcases hfront with hf | hf
  · rw [hf, hback]
    refine ⟨splitLinesC (x.dropWhile (fun ch => ch = '\n')), ?_⟩
    unfold splitLinesC
    rw [splitLinesAux_append_nl, splitLinesAux_no_nl y hy]
    simp
  · rw [hf]
    refine ⟨[], ?_⟩
    have hbacky : (y.reverse.dropWhile (fun ch => ch = '\n')).reverse = y := by
      rw [hdy, dropWhile_nl_cons_not d ds hdnl, ← hdy]
      simp
    rw [hbacky]
    unfold splitLinesC
    rw [splitLinesAux_no_nl y hy]
    simp

/-- The synthetic line `uri: <base_url>` appended to every stanza. -/
def uriLineC (url : String) : List Char := 'u' :: 'r' :: 'i' :: ':' :: ' ' :: url.data

/-- The stanza list built per component (`aptparser.py` line 234, identical
in `apt-mirror.py`): split the decompressed text on blank lines, drop empty
pieces, strip each piece's outer newlines and append the synthetic
`uri: <base_url>` line. -/
def mkComponentData (data url : String) : List String :=
  ((splitNLNLC (stripNLC data.data)).filter (fun d => d ≠ [])).map
    (fun d => String.mk (stripNLC d ++ '\n' :: uriLineC url))

theorem splitHeaderC_uriLine (url : String) :
    splitHeaderC (uriLineC url) = some ("uri".data, url.data) := by
  simp [uriLineC, splitHeaderC]

theorem isContC_uriLine (url : String) : isContC (uriLineC url) = false := rfl

theorem dropWhile_append_singleton (p : List Char → Bool) (xs : List (List Char))
    (a : List Char) (ha : p a = false) :
    (xs ++ [a]).dropWhile p = xs.dropWhile p ++ [a] := by
  induction xs with
  | nil => simp [List.dropWhile_cons, ha]
  | cons x xs ih =>
    by_cases hx : p x <;> simp [List.dropWhile_cons, hx, ih]

/-- If the last line of a stanza is the synthetic `uri: <base_url>` line,
then any successfully parsed record maps `uri` to the base URL: the line
never reads as a continuation (it starts with `u`, not a space), so it is
processed last as a header and its dict assignment wins over any earlier
`uri` field of the stanza's own text. -/
theorem parseLoopF_last_uri (url : String) :
    ∀ (n : Nat) (ls : List (List Char)) (pkg r : Record),
      parseLoopF n (ls ++ [uriLineC url]) pkg = .ok r →
      alLookup r "uri" = some (.str url) := by
  intro n
  induction n with
  | zero =>
    intro ls pkg r h
    cases ls <;> simp [parseLoopF] at h
  | succ n ih =>
    intro ls pkg r h
    cases ls with
    | nil =>
      simp only [List.nil_append] at h
      unfold parseLoopF at h
      rw [splitHeaderC_uriLine] at h
      simp only [] at h
      have hk : ¬ (("uri".data : List Char) = "Size".data) := by decide
      rw [if_neg hk] at h
      have hcn : contNext ([] : List (List Char)) = false := rfl
      rw [hcn] at h
      simp only [if_neg (by simp : ¬ (false = true))] at h
      have hstop : parseLoopF n [] (alInsert pkg (String.mk (pyLowerC "uri".data))
          (.str (String.mk url.data))) =
          .ok (alInsert pkg (String.mk (pyLowerC "uri".data)) (.str (String.mk url.data))) := by
        cases n <;> rfl
      rw [hstop] at h
      have hr : r = alInsert pkg "uri" (.str url) := by
        injection h with h3
        exact h3.symm
      rw [hr]
      exact alLookup_alInsert_self pkg "uri" (.str url)
    | cons l ls' =>
      simp only [List.cons_append] at h
      unfold parseLoopF at h
      split at h
      · exact absurd h (by simp)
      · rename_i k v0 hsp
        split at h
        · split at h
          · exact absurd h (by simp)
          · split at h
            · exact absurd h (by simp)
            · exact ih ls' _ r h
        · split at h
          · rw [dropWhile_append_singleton isContC ls' (uriLineC url) (isContC_uriLine url)] at h
            exact ih (ls'.dropWhile isContC) _ r h
          · exact ih ls' _ r h

/-- Claim C8 confirmed: every stanza produced for a component is non-empty
(empty pieces are dropped), carries the synthetic `uri: <base_url>` line as
its last parsed line, and any record successfully parsed from it maps `uri`
to the owning base URL — even when the stanza's own text already contained a
`uri` field, since the synthetic line is processed last and overwrites it.
(A base URL from the source-line grammar is `\S+`, hence newline-free.) -/
theorem C8_uri_injection (data url : String) (hurl : '\n' ∉ url.data) :
    ∀ stanza ∈ mkComponentData data url,
      stanza ≠ "" ∧
      (linesOf stanza).getLast? = some (uriLineC url) ∧
      ∀ r : Record, parse_package_metadata stanza = .ok r →
        alLookup r "uri" = some (.str url) := by
  intro stanza hmem
  obtain ⟨d, hd, hst⟩ := List.mem_map.mp hmem
  have hy : '\n' ∉ uriLineC url := by
    simp only [uriLineC, List.mem_cons]
    push_neg
    refine ⟨by decide, by decide, by decide, by decide, by decide, hurl⟩
  have hne : uriLineC url ≠ [] := by simp [uriLineC]
  have hlines : ∃ ls, linesOf (String.mk (stripNLC d ++ '\n' :: uriLineC url)) =
      ls ++ [uriLineC url] := linesOf_append_uri (stripNLC d) (uriLineC url) hy hne
  subst hst
  obtain ⟨ls, hls⟩ := hlines
  refine ⟨?_, ?_, ?_⟩
  · intro hcontra
    have hdata : stripNLC d ++ '\n' :: uriLineC url = [] := congrArg String.data hcontra
    simp at hdata
  · rw [hls]
    simp
  · intro r hr
    unfold parse_package_metadata at hr
    rw [hls] at hr
    exact parseLoopF_last_uri url _ _ _ r hr

/-- Witness for `C8_uri_injection` at a concrete input: the second stanza of
the decompressed text already contains a `uri` field, and the parsed record
still carries the injected base URL. -/
theorem C8_uri_injection_witness :
    "Package: b\nuri: old\nVersion: 2\nuri: http://m.example/debian" ≠ "" ∧
    (linesOf "Package: b\nuri: old\nVersion: 2\nuri: http://m.example/debian").getLast? =
      some (uriLineC "http://m.example/debian") ∧
    alLookup [("package", Value.str "b"), ("uri", Value.str "http://m.example/debian"),
        ("version", Value.str "2")] "uri" =
      some (Value.str "http://m.example/debian") := by
  have happ := C8_uri_injection "Package: a\nVersion: 1\n\nPackage: b\nuri: old\nVersion: 2"
    "http://m.example/debian" (by decide)
    "Package: b\nuri: old\nVersion: 2\nuri: http://m.example/debian" (by decide)
  exact ⟨happ.1, happ.2.1, happ.2.2
    [("package", Value.str "b"), ("uri", Value.str "http://m.example/debian"),
      ("version", Value.str "2")] (by decide)⟩

/-! ## Claims C2 and C10: snapshot export/import (`NamespaceEncoder`) -/

/-- `NamespaceEncoder.default` of `aptparser.py`: serializing a record
(`SimpleNamespace`) takes its live `__dict__`, writes the extra key
`__class__ = "SimpleNamespace"` INTO that live dict, and returns it. The
returned mapping and the mutated in-memory record are the same object. -/
def namespaceEncode (r : Record) : Record :=
  alInsert r "__class__" (.str "SimpleNamespace")

/-- The snapshot produced by `json.dump(packages, f, cls=NamespaceEncoder)`:
the name-to-field-set mapping that is serialized (JSON keeps keys, strings
and integers intact, so the flat structure round-trips unchanged). -/
def exportSnapshot (cat : Catalog) : Catalog :=
  cat.map (fun kv => (kv.1, namespaceEncode kv.2))

/-- The in-memory catalog after `json.dump`: every record's live dict was
mutated by `NamespaceEncoder.default` while being serialized. -/
def catalogAfterExport (cat : Catalog) : Catalog :=
  cat.map (fun kv => (kv.1, namespaceEncode kv.2))

/-- `packages = json.load(args.input_file)`: the snapshot mapping is read
back as-is (records come back as plain field mappings). -/
def importSnapshot (snap : Catalog) : Catalog := snap

/-- Claim C2 is false as stated: exporting and re-importing this one-record
catalog does not reproduce it field-for-field — every record comes back with
an extra `__class__: "SimpleNamespace"` field injected by the encoder. -/
theorem C2_roundtrip_counterexample :
    importSnapshot (exportSnapshot [(Value.str "a",
        [("package", Value.str "a"), ("version", Value.str "1"),
         ("uri", Value.str "http://a.example/debian")])]) ≠
      [(Value.str "a",
        [("package", Value.str "a"), ("version", Value.str "1"),
         ("uri", Value.str "http://a.example/debian")])] := by
  decide

/-- Claim C2 amended: export followed by import yields a catalog with the
same package names, where each record keeps every original field and value
(including the injected `uri`) but additionally carries a
`__class__ = "SimpleNamespace"` field; so the round trip is field-for-field
identical except for that one extra key. -/
theorem C2_roundtrip_amended (cat : Catalog) (k : Value) (r : Record)
    (h : alLookup cat k = some r) :
    alLookup (importSnapshot (exportSnapshot cat)) k =
      some (alInsert r "__class__" (.str "SimpleNamespace")) ∧
    (∀ f : String, f ≠ "__class__" →
      alLookup (alInsert r "__class__" (.str "SimpleNamespace")) f = alLookup r f) ∧
    alLookup (alInsert r "__class__" (.str "SimpleNamespace")) "__class__" =
      some (.str "SimpleNamespace") := by
  refine ⟨?_, ?_, ?_⟩
  · unfold importSnapshot exportSnapshot
    rw [alLookup_map_snd, h]
    rfl
  · intro f hf
    exact alLookup_alInsert_ne r "__class__" f (.str "SimpleNamespace") hf
  · exact alLookup_alInsert_self r "__class__" (.str "SimpleNamespace")

/-- Witness for `C2_roundtrip_amended` at a concrete input. -/
theorem C2_roundtrip_amended_witness :
    alLookup (importSnapshot (exportSnapshot [(Value.str "a",
        [("package", Value.str "a"), ("uri", Value.str "http://a.example/debian")])]))
      (Value.str "a") =
      some (alInsert [("package", Value.str "a"), ("uri", Value.str "http://a.example/debian")]
        "__class__" (.str "SimpleNamespace")) :=
  (C2_roundtrip_amended [(Value.str "a",
      [("package", Value.str "a"), ("uri", Value.str "http://a.example/debian")])]
    (Value.str "a")
    [("package", Value.str "a"), ("uri", Value.str "http://a.example/debian")]
    (by decide)).1

/-- Claim C10 confirmed: exporting the catalog mutates it. After
`json.dump`, every record that lacked a `__class__` field now carries
`__class__ = "SimpleNamespace"` in its live field mapping and is no longer
equal to its pre-export self — export is not a read-only operation on the
catalog. -/
theorem C10_export_mutates (cat : Catalog) (k : Value) (r : Record)
    (h : alLookup cat k = some r)
    (hfree : alLookup r "__class__" = none) :
    alLookup (catalogAfterExport cat) k =
      some (alInsert r "__class__" (.str "SimpleNamespace")) ∧
    alLookup (alInsert r "__class__" (.str "SimpleNamespace")) "__class__" =
      some (.str "SimpleNamespace") ∧
    alInsert r "__class__" (.str "SimpleNamespace") ≠ r := by
  refine ⟨?_, ?_, ?_⟩
  · unfold catalogAfterExport
    rw [alLookup_map_snd, h]
    rfl
  · exact alLookup_alInsert_self r "__class__" (.str "SimpleNamespace")
  · exact alInsert_ne_of_not_mem r "__class__" (.str "SimpleNamespace") hfree

/-- Witness for `C10_export_mutates` at a concrete input. -/
theorem C10_export_mutates_witness :
    alLookup (catalogAfterExport [(Value.str "a",
        [("package", Value.str "a"), ("version", Value.str "1")])]) (Value.str "a") =
      some (alInsert [("package", Value.str "a"), ("version", Value.str "1")]
        "__class__" (.str "SimpleNamespace")) ∧
    alInsert [("package", Value.str "a"), ("version", Value.str "1")]
        "__class__" (.str "SimpleNamespace") ≠
      [("package", Value.str "a"), ("version", Value.str "1")] := by
  have happ := C10_export_mutates [(Value.str "a",
      [("package", Value.str "a"), ("version", Value.str "1")])] (Value.str "a")
    [("package", Value.str "a"), ("version", Value.str "1")] (by decide) (by decide)
  exact ⟨happ.1, happ.2.2⟩

/-! ## Claim C4: the index-cache path derivation (`URL_MATCHER`) -/

/-- The alternatives of `URL_MATCHER`'s extension group, in pattern order:
`gz|xz|lzma|bz2`. -/
def extsList : List (List Char) := ["gz".data, "xz".data, "lzma".data, "bz2".data]

/-- Does one of the compression extensions start here? -/
def startsWithExt (cs : List Char) : Bool :=
  extsList.any (fun e => e.isPrefixOf cs)

/-- The scheme prefix `https?://` of `URL_MATCHER`; `none` when the regex
cannot match at all. -/
def stripSchemeC : List Char → Option (List Char)
  | 'h' :: 't' :: 't' :: 'p' :: 's' :: ':' :: '/' :: '/' :: r => some r
  | 'h' :: 't' :: 't' :: 'p' :: ':' :: '/' :: '/' :: r => some r
  | _ => none

/-- Group 1 of `URL_MATCHER = re.compile("https?://(.*)\.(gz|xz|lzma|bz2)")`
after the scheme: the greedy `(.*)` captures the longest prefix that is
followed by a dot and one of the extensions, i.e. everything before the LAST
such occurrence; in particular the trailing `.gz` of an index URL is cut
off. `none` models the failed match (`AttributeError` on `.group`). -/
def lastDotExt : List Char → Option (List Char)
  | [] => none
  | c :: cs =>
    match lastDotExt cs with
    | some p => some (c :: p)
    | none => if c = '.' ∧ startsWithExt cs then some [] else none

/-- `.replace("/", "_")`. -/
def slashify (cs : List Char) : List Char :=
  cs.map (fun c => if c = '/' then '_' else c)

/-- `local_file_name` of `get_packages_from_deb_line`:
`URL_MATCHER.match(packages_file).group(1).replace("/", "_")`. -/
def local_file_name (u : String) : Option String :=
  match stripSchemeC u.data with
  | none => none
  | some r =>
    match lastDotExt r with
    | none => none
    | some p => some (String.mk (slashify p))

/-- `os.path.join` for the two-component joins of the source (the left
component is never empty). -/
def pyPathJoin (a b : String) : String :=
  if b.data.head? = some '/' then b
  else if a.data.getLast? = some '/' then a ++ b
  else a ++ "/" ++ b

/-- `local_file_path`: `os.path.join("/var/lib/apt/lists", local_file_name)`. -/
def local_file_path (u : String) : Option String :=
  (local_file_name u).map (fun n => pyPathJoin "/var/lib/apt/lists" n)

/-- Modelled from the spec's words, for comparison with the code's
derivation: the claimed cache path is the index-cache root joined with the
URL text obtained by stripping the URL scheme and replacing every `/` with
`_` (no mention of the compression extension). -/
def specCachePath (u : String) : Option String :=
  (stripSchemeC u.data).map (fun r => pyPathJoin "/var/lib/apt/lists" (String.mk (slashify r)))

/-- The per-component cache-or-fetch step of `get_packages_from_deb_line`:
a file at the derived path is read outright (no request); otherwise the
index URL is fetched (the network oracle returns the already-decompressed
text of a 200 response, `none` for any other status, which raises).
The returned triple is (index text, status marker, requested URLs). -/
def fetchIndexData (cache net : String → Option String) (packages_file : String) :
    Except PyErr (String × String × List String) :=
  match local_file_path packages_file with
  | none => .error (.attributeError "group")
  | some path =>
    match cache path with
    | some data => .ok (data, "Cache", [])
    | none =>
      match net packages_file with
      | some data => .ok (data, "Fetch", [packages_file])
      | none => .error (.valueError packages_file)

theorem lastDotExt_of_ext (e : List Char) (he : e ∈ extsList) : lastDotExt e = none := by
  fin_cases he <;> decide

theorem startsWithExt_self (e : List Char) (he : e ∈ extsList) : startsWithExt e = true := by
  fin_cases he <;> decide

theorem lastDotExt_append_ext (e : List Char) (he : e ∈ extsList) :
    ∀ p : List Char, lastDotExt (p ++ '.' :: e) = some p := by
  intro p
  induction p with
  | nil =>
    simp only [List.nil_append, lastDotExt, lastDotExt_of_ext e he]
    simp [startsWithExt_self e he]
  | cons c p' ih =>
    simp [lastDotExt, ih]

/-- Claim C4 is false as stated: for the index URL of the `bookworm/main`
component the code's derived path also strips the trailing `.gz`, so it
differs from the path obtained by only stripping the scheme and replacing
slashes (the spec-claimed derivation keeps the `.gz`). -/
theorem C4_cachepath_counterexample :
    local_file_path
        "http://example.test/debian/dists/bookworm/main/binary-amd64/Packages.gz" =
      some "/var/lib/apt/lists/example.test_debian_dists_bookworm_main_binary-amd64_Packages" ∧
    specCachePath
        "http://example.test/debian/dists/bookworm/main/binary-amd64/Packages.gz" =
      some "/var/lib/apt/lists/example.test_debian_dists_bookworm_main_binary-amd64_Packages.gz" ∧
    local_file_path
        "http://example.test/debian/dists/bookworm/main/binary-amd64/Packages.gz" ≠
      specCachePath
        "http://example.test/debian/dists/bookworm/main/binary-amd64/Packages.gz" := by
  refine ⟨by decide, by decide, by decide⟩

/-- Claim C4 amended: (1) for every index URL consisting of a scheme, a body
and a trailing compression extension, the derived local cache path is the
index-cache root `/var/lib/apt/lists` joined with the URL text obtained by
stripping the scheme, dropping the trailing dot-plus-extension, and
replacing every `/` with `_`; (2) whenever the cache oracle has a file at
that derived path, its contents are returned as the index text with status
`Cache` and no network request is made. -/
theorem C4_cachepath_amended :
    (∀ (u : String) (p e : List Char),
      stripSchemeC u.data = some (p ++ '.' :: e) → e ∈ extsList →
      local_file_path u = some (pyPathJoin "/var/lib/apt/lists" (String.mk (slashify p)))) ∧
    (∀ (cache net : String → Option String) (u path data : String),
      local_file_path u = some path → cache path = some data →
      fetchIndexData cache net u = .ok (data, "Cache", [])) := by
  constructor
  · intro u p e hstrip he
    simp only [local_file_path, local_file_name, hstrip, lastDotExt_append_ext e he p]
    rfl
  · intro cache net u path data hpath hcache
    simp only [fetchIndexData, hpath, hcache]

/-- Witness for `C4_cachepath_amended`: both conjuncts at concrete inputs —
a concrete `.gz` index URL, and a cache oracle holding a file at its derived
path. -/
theorem C4_cachepath_amended_witness :
    local_file_path "http://example.test/debian/x.gz" =
      some (pyPathJoin "/var/lib/apt/lists" (String.mk (slashify "example.test/debian/x".data))) ∧
    fetchIndexData
      (fun pth => if pth = "/var/lib/apt/lists/example.test_debian_x" then some "DATA" else none)
      (fun _ => none)
      "http://example.test/debian/x.gz" = .ok ("DATA", "Cache", []) := by
  constructor
  · exact C4_cachepath_amended.1 "http://example.test/debian/x.gz"
      "example.test/debian/x".data "gz".data (by decide) (by decide)
  · exact C4_cachepath_amended.2
      (fun pth => if pth = "/var/lib/apt/lists/example.test_debian_x" then some "DATA" else none)
      (fun _ => none) "http://example.test/debian/x.gz"
      "/var/lib/apt/lists/example.test_debian_x" "DATA" (by decide) (by decide)

/-! ## Claim C7: skipping unparseable and `deb-src` lines -/

/-- `re.sub(" ?#.*", "", deb_line)`: cut everything from the first `#`
(plus at most one space directly before it) to the end of the line. -/
def stripCommentAux : List Char → List Char
  | [] => []
  | ' ' :: '#' :: _ => []
  | '#' :: _ => []
  | c :: cs => c :: stripCommentAux cs

/-- String wrapper for `stripCommentAux`. -/
def stripCommentHash (s : String) : String := String.mk (stripCommentAux s.data)

/-- `\s+`: require at least one whitespace character, consume the run. -/
def chompWS : List Char → Option (List Char)
  | [] => none
  | c :: cs => if pyIsSpace c then some (cs.dropWhile pyIsSpace) else none

/-- The `(?P<source_type>deb|deb-src)\s+` part of `SOURCES_LINE_PAT`, with
the regex's backtracking: `deb` is tried first; when the following `\s+`
fails the engine falls back to `deb-src`. -/
def chompType (cs : List Char) : Option (String × List Char) :=
  match cs with
  | 'd' :: 'e' :: 'b' :: rest =>
    match rest with
    | '-' :: 's' :: 'r' :: 'c' :: rest2 =>
      match chompWS rest2 with
      | some r => some ("deb-src", r)
      | none => none
    | _ =>
      match chompWS rest with
      | some r => some ("deb", r)
      | none => none
  | _ => none

/-- The optional `(?:\[\S+\]\s+)?` group: a bracketed non-whitespace block
whose closing `]` is the last character of the block (anything later in the
run is non-whitespace, which `\s+` would reject), followed by whitespace.
When it cannot match, the group matches empty. -/
def chompOptBracket (cs : List Char) : List Char :=
  match cs with
  | '[' :: rest =>
    let run := rest.takeWhile (fun c => ¬ pyIsSpace c)
    let after := rest.dropWhile (fun c => ¬ pyIsSpace c)
    if run.getLast? = some ']' ∧ 2 ≤ run.length ∧ after ≠ [] then after.dropWhile pyIsSpace
    else cs
  | _ => cs

/-- `(?P<url>https?://\S+)\s+`: the scheme, a maximal nonempty run of
non-whitespace, then at least one whitespace character. -/
def chompUrl (cs : List Char) : Option (String × List Char) :=
  match cs with
  | 'h' :: 't' :: 't' :: 'p' :: rest =>
    match rest with
    | 's' :: ':' :: '/' :: '/' :: r => chompUrlTail "https://" r
    | ':' :: '/' :: '/' :: r => chompUrlTail "http://" r
    | _ => none
  | _ => none
where
  chompUrlTail (scheme : String) (r : List Char) : Option (String × List Char) :=
    let run := r.takeWhile (fun c => ¬ pyIsSpace c)
    let after := r.dropWhile (fun c => ¬ pyIsSpace c)
    if run ≠ [] ∧ after ≠ [] then some (scheme ++ String.mk run, after.dropWhile pyIsSpace)
    else none

/-- `(?P<release>\S+)\s+`. -/
def chompNonWS (cs : List Char) : Option (String × List Char) :=
  let run := cs.takeWhile (fun c => ¬ pyIsSpace c)
  let after := cs.dropWhile (fun c => ¬ pyIsSpace c)
  if run ≠ [] ∧ after ≠ [] then some (String.mk run, after.dropWhile pyIsSpace)
  else none

/-- `(?P<components>[^#]+)\s*`: a maximal nonempty run of non-`#` characters
(the trailing `\s*` always matches and the pattern is unanchored at the
end). -/
def chompComponents (cs : List Char) : Option String :=
  let run := cs.takeWhile (fun c => ¬ c = '#')
  if run ≠ [] then some (String.mk run) else none

/-- `SOURCES_LINE_PAT.match(deb_line)`: the sequential match of
`^(deb|deb-src)\s+(?:\[\S+\]\s+)?(https?://\S+)\s+(\S+)\s+([^#]+)\s*`,
yielding the groups (source_type, url, release, components). -/
def matchSourcesLine (s : String) : Option (String × String × String × String) :=
  match chompType s.data with
  | none => none
  | some (stype, r1) =>
    match chompUrl (chompOptBracket r1) with
    | none => none
    | some (url, r3) =>
      match chompNonWS r3 with
      | none => none
      | some (release, r4) =>
        match chompComponents r4 with
        | none => none
        | some comps => some (stype, url, release, comps)

/-- Maximal character runs tagged with whether they are whitespace. -/
def spaceRuns : List Char → List (Bool × List Char)
  | [] => []
  | c :: cs =>
    match spaceRuns cs with
    | [] => [(pyIsSpace c, [c])]
    | (t, r) :: rest =>
      if t = pyIsSpace c then (t, c :: r) :: rest
      else (pyIsSpace c, [c]) :: (t, r) :: rest

/-- `re.split(r"\s+", s)`: whitespace runs separate tokens; a leading or
trailing run contributes an empty token, and the empty string yields one
empty token. -/
def runsToTokens : List (Bool × List Char) → List String
  | [] => [""]
  | [(false, t)] => [String.mk t]
  | (false, t) :: _ :: rest => String.mk t :: runsToTokens rest
  | (true, _) :: rest => "" :: runsToTokens rest

/-- `re.split(r"\s+", s)`. -/
def pySplitWS (s : String) : List String := runsToTokens (spaceRuns s.data)

/-- The per-component loop of `get_packages_from_deb_line`: build the index
URL, resolve it through cache or network, split into stanzas with the `uri`
injection, and accumulate stanzas and requested URLs across components. -/
def fetchComponentsLoop (cache net : String → Option String) (url release : String) :
    List String → Except PyErr (List String × List String)
  | [] => .ok ([], [])
  | comp :: rest =>
    let packages_file :=
      pyPathJoin (pyPathJoin (pyPathJoin (pyPathJoin url "dists") release) comp)
        "binary-amd64/Packages.gz"
    match fetchIndexData cache net packages_file with
    | .error e => .error e
    | .ok (data, _status, reqs) =>
      match fetchComponentsLoop cache net url release rest with
      | .error e => .error e
      | .ok (stanzas, reqs') => .ok (mkComponentData data url ++ stanzas, reqs ++ reqs')

/-- `get_packages_from_deb_line` of `aptparser.py`: strip the comment, match
the grammar (`DebSrcLineUnparseable` when it fails), reject `deb-src`
(`DebSrcNotImplemented`) before any network or cache activity, then fetch
every component. Returns (stanzas, requested URLs). -/
def get_packages_from_deb_line (cache net : String → Option String) (deb_line : String) :
    Except PyErr (List String × List String) :=
  let cleaned := stripCommentHash deb_line
  match matchSourcesLine cleaned with
  | none => .error (.unparseable cleaned)
  | some (stype, url, release, comps) =>
    if stype = "deb-src" then .error .notImplemented
    else fetchComponentsLoop cache net url release (pySplitWS comps)

/-- The `for deb_line in deb_lines:` loop of `main`: the two source-line
errors are caught and the line is skipped; everything else (index fetch
failures, cache-path mismatches) propagates and aborts the run. The result
collects all stanzas and all requested URLs in order. -/
def processDebLines (cache net : String → Option String) :
    List String → Except PyErr (List String × List String)
  | [] => .ok ([], [])
  | l :: rest =>
    match get_packages_from_deb_line cache net l with
    | .ok (s, r) =>
      match processDebLines cache net rest with
      | .ok (s', r') => .ok (s ++ s', r ++ r')
      | .error e => .error e
    | .error (.unparseable _) => processDebLines cache net rest
    | .error .notImplemented => processDebLines cache net rest
    | .error e => .error e

/-- Claim C7 confirmed: a declaration line that fails the source-line
grammar or has type `deb-src` raises before any cache or network activity,
the error is caught, and the run over the remaining lines is exactly the run
without that line — same stanzas (hence the same catalog downstream) and the
same requested URLs, with no fetch for the skipped line. -/
theorem C7_skip_lines (cache net : String → Option String) (pre post : List String)
    (l : String)
    (h : matchSourcesLine (stripCommentHash l) = none ∨
      ∃ url release comps, matchSourcesLine (stripCommentHash l) =
        some ("deb-src", url, release, comps)) :
    (get_packages_from_deb_line cache net l = .error (.unparseable (stripCommentHash l)) ∨
      get_packages_from_deb_line cache net l = .error .notImplemented) ∧
    processDebLines cache net (pre ++ l :: post) = processDebLines cache net (pre ++ post) := by
  have herr : get_packages_from_deb_line cache net l =
      .error (.unparseable (stripCommentHash l)) ∨
      get_packages_from_deb_line cache net l = .error .notImplemented := by
    rcases h with hnone | ⟨url, release, comps, hsome⟩
    · left
      simp only [get_packages_from_deb_line, hnone]
    · right
      simp only [get_packages_from_deb_line, hsome]
      rfl
  refine ⟨herr, ?_⟩
  induction pre with
  | nil =>
    simp only [List.nil_append, processDebLines]
    rcases herr with he | he <;> rw [he]
  | cons p pre' ih =>
    simp only [List.cons_append, processDebLines, List.append_eq]
    rw [ih]

/-- Witness for `C7_skip_lines`: the spec's own example line
`deb-src http://example.test/debian bookworm main` is recognized, skipped,
and a run consisting only of it equals the empty run. -/
theorem C7_skip_lines_witness :
    (get_packages_from_deb_line (fun _ => none) (fun _ => none)
        "deb-src http://example.test/debian bookworm main" =
        .error (.unparseable
          (stripCommentHash "deb-src http://example.test/debian bookworm main")) ∨
      get_packages_from_deb_line (fun _ => none) (fun _ => none)
        "deb-src http://example.test/debian bookworm main" = .error .notImplemented) ∧
    processDebLines (fun _ => none) (fun _ => none)
        ([] ++ "deb-src http://example.test/debian bookworm main" :: []) =
      processDebLines (fun _ => none) (fun _ => none) ([] ++ []) :=
  C7_skip_lines (fun _ => none) (fun _ => none) [] []
    "deb-src http://example.test/debian bookworm main"
    (Or.inr ⟨"http://example.test/debian", "bookworm", "main", by decide⟩)

/-! ## Claim C6: idempotent download skip -/

/-- Python string `<` (codepoint-lexicographic) on character lists. -/
def lexLt : List Char → List Char → Bool
  | [], [] => false
  | [], _ :: _ => true
  | _ :: _, [] => false
  | a :: as, b :: bs =>
    if a.toNat < b.toNat then true
    else if b.toNat < a.toNat then false
    else lexLt as bs

/-- Insertion step of `sorted`. -/
def ordInsert (x : String) : List String → List String
  | [] => [x]
  | y :: ys => if lexLt x.data y.data then x :: y :: ys else y :: ordInsert x ys

/-- `sorted(keys)` (insertion sort; the keys of a dict are unique, so
stability is irrelevant). -/
def pySorted : List String → List String
  | [] => []
  | x :: xs => ordInsert x (pySorted xs)

/-- The catalog keys as strings; `none` when some key is not text (Python's
`sorted` would raise a `TypeError` on a mixed-type key set). -/
def strKeys : Catalog → Option (List String)
  | [] => some []
  | (k, _) :: rest =>
    match k with
    | .str s =>
      match strKeys rest with
      | some ss => some (s :: ss)
      | none => none
    | .int _ => none

/-- `sorted(packages.keys())`. -/
def sortedKeys (cat : Catalog) : Except PyErr (List String) :=
  match strKeys cat with
  | some ks => .ok (pySorted ks)
  | none => .error .typeError

/-- `os.stat(target).st_size == package.size`: Python `==` between the stat
size and the record's `size` value — false whenever the value is text. -/
def sizeValueEq (n : Nat) : Value → Bool
  | .int m => (n : Int) = m
  | .str _ => false

/-- One iteration of the download loop of `main`: build the download URL
`{package.uri}/{package.filename}` and the target
`{args.download}/{package.filename}`; if a file exists at the target with
byte size equal to `package.size`, skip (no request, filesystem unchanged);
otherwise stream the URL to the target (the network oracle gives the body
size of a successful transfer, `none` models a failed one). Returns the
updated filesystem and the requested URLs. -/
def downloadOne (fs net : String → Option Nat) (output_dir : String)
    (package : Record) : Except PyErr ((String → Option Nat) × List String) :=
  match alLookup package "uri" with
  | none => .error (.attributeError "uri")
  | some uriV =>
    match alLookup package "filename" with
    | none => .error (.attributeError "filename")
    | some fnV =>
      let url := valueToStr uriV ++ "/" ++ valueToStr fnV
      let target := output_dir ++ "/" ++ valueToStr fnV
      match fs target with
      | some n =>
        match alLookup package "size" with
        | none => .error (.attributeError "size")
        | some sz =>
          if sizeValueEq n sz then .ok (fs, [])
          else
            match net url with
            | some m => .ok (fun p => if p = target then some m else fs p, [url])
            | none => .error (.valueError url)
      | none =>
        match net url with
        | some m => .ok (fun p => if p = target then some m else fs p, [url])
        | none => .error (.valueError url)

/-- The download loop over the sorted package names. -/
def downloadLoop (net : String → Option Nat) (output_dir : String) (cat : Catalog) :
    List String → (String → Option Nat) → Except PyErr ((String → Option Nat) × List String)
  | [], fs => .ok (fs, [])
  | name :: rest, fs =>
    match alLookup cat (.str name) with
    | none => .error .keyError
    | some package =>
      match downloadOne fs net output_dir package with
      | .error e => .error e
      | .ok (fs', reqs) =>
        match downloadLoop net output_dir cat rest fs' with
        | .error e => .error e
        | .ok (fs'', reqs') => .ok (fs'', reqs ++ reqs')

/-- The whole `if args.download:` pass of `main`. -/
def downloadRun (fs net : String → Option Nat) (output_dir : String) (cat : Catalog) :
    Except PyErr ((String → Option Nat) × List String) :=
  match sortedKeys cat with
  | .error e => .error e
  | .ok names => downloadLoop net output_dir cat names fs

/-- The skip condition of the loop: a file exists at
`{output_dir}/{package.filename}` whose size equals `package.size`. -/
def skipCond (fs : String → Option Nat) (output_dir : String) (package : Record) : Bool :=
  match alLookup package "filename", alLookup package "size" with
  | some fnV, some sz =>
    match fs (output_dir ++ "/" ++ valueToStr fnV) with
    | some n => sizeValueEq n sz
    | none => false
  | _, _ => false

theorem mem_ordInsert (x a : String) (l : List String) (h : a ∈ ordInsert x l) :
    a = x ∨ a ∈ l := by
  induction l with
  | nil => simpa [ordInsert] using h
  | cons y ys ih =>
    unfold ordInsert at h
    by_cases hxy : lexLt x.data y.data
    · rw [if_pos hxy] at h
      rcases List.mem_cons.mp h with h1 | h1
      · exact Or.inl h1
      · exact Or.inr h1
    · rw [if_neg hxy] at h
      rcases List.mem_cons.mp h with h1 | h1
      · exact Or.inr (by simp [h1])
      · rcases ih h1 with h2 | h2
        · exact Or.inl h2
        · exact Or.inr (List.mem_cons_of_mem _ h2)

theorem mem_pySorted (a : String) (l : List String) (h : a ∈ pySorted l) : a ∈ l := by
  induction l with
  | nil => simp [pySorted] at h
  | cons x xs ih =>
    rcases mem_ordInsert x a (pySorted xs) h with h' | h'
    · simp [h']
    · exact List.mem_cons_of_mem _ (ih h')

theorem alLookup_mem {κ α : Type} [DecidableEq κ] (l : List (κ × α)) (k : κ) (v : α)
    (h : alLookup l k = some v) : (k, v) ∈ l := by
  induction l with
  | nil => simp [alLookup] at h
  | cons p rest ih =>
    obtain ⟨k', v'⟩ := p
    by_cases hk : k' = k
    · subst hk
      simp [alLookup] at h
      simp [h]
    · simp [alLookup, hk] at h
      exact List.mem_cons_of_mem _ (ih h)

theorem strKeys_lookup (cat : Catalog) (ks : List String) (hks : strKeys cat = some ks) :
    ∀ name ∈ ks, ∃ p, alLookup cat (.str name) = some p := by
  induction cat generalizing ks with
  | nil =>
    simp [strKeys] at hks
    subst hks
    simp
  | cons kv rest ih =>
    obtain ⟨k, p⟩ := kv
    cases k with
    | int n => simp [strKeys] at hks
    | str s =>
      cases hrest : strKeys rest with
      | none => simp [strKeys, hrest] at hks
      | some ss =>
        simp [strKeys, hrest] at hks
        subst hks
        intro name hname
        rcases List.mem_cons.mp hname with hname | hname
        · subst hname
          exact ⟨p, by simp [alLookup]⟩
        · by_cases hs : s = name
          · exact ⟨p, by simp [alLookup, hs]⟩
          · obtain ⟨q, hq⟩ := ih ss hrest name hname
            refine ⟨q, ?_⟩
            have : ¬ (Value.str s = Value.str name) := by simp [hs]
            simp [alLookup, this, hq]

/-- Claim C6 confirmed: (1) for any single resolved record whose target file
exists with a byte size equal to the record's `size`, the download is
skipped — no network request and the filesystem is returned unchanged;
(2) a whole download run in which every catalog record satisfies the skip
condition issues zero network requests and leaves the filesystem untouched
(in particular, a second run over targets completed by a first run). -/
theorem C6_download_skip :
    (∀ (fs net : String → Option Nat) (output_dir : String) (package : Record),
      (alLookup package "uri").isSome = true →
      skipCond fs output_dir package = true →
      downloadOne fs net output_dir package = .ok (fs, [])) ∧
    (∀ (fs net : String → Option Nat) (output_dir : String) (cat : Catalog)
      (ks : List String),
      strKeys cat = some ks →
      (∀ k p, (k, p) ∈ cat →
        (alLookup p "uri").isSome = true ∧ skipCond fs output_dir p = true) →
      downloadRun fs net output_dir cat = .ok (fs, [])) := by
  have hone : ∀ (fs net : String → Option Nat) (output_dir : String) (package : Record),
      (alLookup package "uri").isSome = true →
      skipCond fs output_dir package = true →
      downloadOne fs net output_dir package = .ok (fs, []) := by
    intro fs net output_dir package huri hskip
    unfold skipCond at hskip
    cases huriv : alLookup package "uri" with
    | none => rw [huriv] at huri; simp at huri
    | some uriV =>
      cases hfnv : alLookup package "filename" with
      | none => simp [hfnv] at hskip
      | some fnV =>
        cases hszv : alLookup package "size" with
        | none => simp [hfnv, hszv] at hskip
        | some sz =>
          simp only [hfnv, hszv] at hskip
          cases hfs : fs (output_dir ++ "/" ++ valueToStr fnV) with
          | none => simp [hfs] at hskip
          | some n =>
            simp only [hfs] at hskip
            unfold downloadOne
            simp only [huriv, hfnv, hfs, hszv]
            simp [hskip]
  refine ⟨hone, ?_⟩
  intro fs net output_dir cat ks hks hall
  unfold downloadRun sortedKeys
  rw [hks]
  have hloop : ∀ names : List String,
      (∀ name ∈ names, ∃ p, alLookup cat (.str name) = some p) →
      downloadLoop net output_dir cat names fs = .ok (fs, []) := by
    intro names
    induction names with
    | nil => intro _; rfl
    | cons name rest ih =>
      intro hmem
      obtain ⟨p, hp⟩ := hmem name (List.mem_cons_self name rest)
      obtain ⟨huri, hskip⟩ := hall (.str name) p (alLookup_mem cat (.str name) p hp)
      have h1 := hone fs net output_dir p huri hskip
      simp only [downloadLoop, hp, h1]
      rw [ih (fun n hn => hmem n (List.mem_cons_of_mem _ hn))]
      simp
  have hnames : ∀ name ∈ pySorted ks, ∃ p, alLookup cat (.str name) = some p :=
    fun name hn => strKeys_lookup cat ks hks name (mem_pySorted name ks hn)
  simpa using hloop (pySorted ks) hnames

/-- The concrete record used to witness the download-skip rule. -/
def recDownloaded : Record :=
  [("package", .str "pkg"), ("version", .str "1.0"),
   ("filename", .str "pool/p_1.0.deb"), ("size", .int 100),
   ("uri", .str "http://a.example/debian")]

/-- The filesystem oracle holding a size-matching file at the target. -/
def fsDownloaded : String → Option Nat :=
  fun q => if q = "/out/pool/p_1.0.deb" then some 100 else none

/-- Witness for `C6_download_skip`: a single-record catalog whose target file
already has the right size is skipped both per record and for the whole run,
with zero requests. -/
theorem C6_download_skip_witness :
    downloadOne fsDownloaded (fun _ => none) "/out" recDownloaded =
      .ok (fsDownloaded, []) ∧
    downloadRun fsDownloaded (fun _ => none) "/out"
        [(Value.str "pkg", recDownloaded)] =
      .ok (fsDownloaded, []) := by
  constructor
  · exact C6_download_skip.1 fsDownloaded (fun _ => none) "/out" recDownloaded
      (by decide) (by decide)
  · refine C6_download_skip.2 fsDownloaded (fun _ => none) "/out"
      [(Value.str "pkg", recDownloaded)] ["pkg"] (by decide) ?_
    intro k p hkp
    simp only [List.mem_singleton] at hkp
    simp only [Prod.mk.injEq] at hkp
    obtain ⟨rfl, rfl⟩ := hkp
    exact ⟨by decide, by decide⟩

/-! ## Fuel adequacy: the termination device never alters the semantics -/

theorem length_dropWhileLe {α : Type} (p : α → Bool) (l : List α) :
    (l.dropWhile p).length ≤ l.length := by
  induction l with
  | nil => simp
  | cons a l ih =>
    rw [List.dropWhile_cons]
    by_cases h : p a
    · simp only [h, if_true]
      exact Nat.le_succ_of_le ih
    · simp [h]

/-- With at least `lines.length` fuel — what `parse_package_metadata`
supplies — the parser loop never runs out of fuel: every iteration consumes
at least the header line it pops. -/
theorem parseLoopF_no_fuel_error :
    ∀ (n : Nat) (lines : List (List Char)) (pkg : Record),
      lines.length ≤ n → parseLoopF n lines pkg ≠ .error .fuel := by
  intro n
  induction n with
  | zero =>
    intro lines pkg hlen
    cases lines with
    | nil => simp [parseLoopF]
    | cons l ls => simp at hlen
  | succ n ih =>
    intro lines pkg hlen
    cases lines with
    | nil => simp [parseLoopF]
    | cons line rest =>
      unfold parseLoopF
      split
      · simp
      · rename_i k v0 hsp
        split
        · split
          · simp
          · split
            · simp
            · exact ih rest _ (by simpa using hlen)
        · split
          · refine ih _ _ ?_
            calc (rest.dropWhile isContC).length ≤ rest.length :=
                  length_dropWhileLe isContC rest
              _ ≤ n := by simpa using hlen
          · exact ih rest _ (by simpa using hlen)

/-- `parse_package_metadata` never reports the artificial fuel error. -/
theorem parse_package_metadata_no_fuel (s : String) :
    parse_package_metadata s ≠ .error .fuel :=
  parseLoopF_no_fuel_error (linesOf s).length (linesOf s) [] (Nat.le_refl _)
